import Mathlib

/-!
Verification of the two-stage screening engine of `rmc_app`
(`src/pipeline/two_stage_pipeline.py`, `src/pipeline/model_training.py`,
`src/pipeline/model_evaluation.py`, `src/pipeline/fairness_audit.py`).

Modelling conventions (shallow embedding):
* numpy float arrays are modelled as `List ℚ` and float arithmetic as exact
  rational arithmetic;
* the fitted gate and ranker are opaque row-wise functions `α → ℚ`
  (`gate.predict_proba(X)[:, 1]` and `ranker.predict`), since the trained
  boosters are deterministic per-row maps;
* `np.argsort` (ascending) is modelled as the stable ascending argsort:
  indices sorted lexicographically by (key, original position);
* a Python function that raises on some input is modelled as returning
  `Option`, with `none` for the raising case.
-/

/-- Comparison used to model `np.argsort` on a list of keys `xs`: position `i`
comes before position `j` when its key is smaller, with ties broken by the
original position (the stable ascending argsort order). -/
def argsortLe (xs : List ℚ) (i j : ℕ) : Prop :=
  xs.getD i 0 < xs.getD j 0 ∨ (xs.getD i 0 = xs.getD j 0 ∧ i ≤ j)

instance (xs : List ℚ) : DecidableRel (argsortLe xs) := fun i j => by
  unfold argsortLe; infer_instance

instance (xs : List ℚ) : IsTotal ℕ (argsortLe xs) where
  total i j := by
    unfold argsortLe
    rcases lt_trichotomy (xs.getD i 0) (xs.getD j 0) with h | h | h
    · exact Or.inl (Or.inl h)
    · rcases Nat.le_total i j with hij | hij
      · exact Or.inl (Or.inr ⟨h, hij⟩)
      · exact Or.inr (Or.inr ⟨h.symm, hij⟩)
    · exact Or.inr (Or.inl h)

instance (xs : List ℚ) : IsTrans ℕ (argsortLe xs) where
  trans i j k hij hjk := by
    unfold argsortLe at *
    rcases hij with h1 | ⟨e1, l1⟩
    · rcases hjk with h2 | ⟨e2, _⟩
      · exact Or.inl (h1.trans h2)
      · exact Or.inl (e2 ▸ h1)
    · rcases hjk with h2 | ⟨e2, l2⟩
      · exact Or.inl (e1 ▸ h2)
      · exact Or.inr ⟨e1.trans e2, l1.trans l2⟩

/-- Modelled `np.argsort(xs)`: the positions `0, …, xs.length - 1` sorted
ascending by key. numpy's default `kind='quicksort'` leaves the order of equal
keys unspecified, so a model may fix any tie order; this one fixes the stable
tie order (original position first), which is the behaviour numpy exhibits on
small arrays, where introsort falls back to insertion sort. No theorem below
relies on the modelled tie order except one concrete two-element evaluation,
where numpy is stable. -/
def argsortAsc (xs : List ℚ) : List ℕ :=
  List.insertionSort (argsortLe xs) (List.range xs.length)

/-- Result record of `triage_applicants`
(`src/pipeline/two_stage_pipeline.py:47-98`). -/
structure TriageResult where
  selected_indices : List ℕ
  predicted_scores : List ℚ
  p_low : List ℚ
  gate_rejection_rate : ℚ
  n_passed_gate : ℕ
deriving Repr, DecidableEq

/-- Indices of pool members whose calibrated probability of being a low scorer
is strictly below the gate threshold: `np.where(passed_gate)[0]` with
`passed_gate = p_low < gate_threshold`. -/
def passedIndices {α : Type} [Inhabited α] (X_pool : List α) (gate : α → ℚ)
    (gate_threshold : ℚ) : List ℕ :=
  (List.range X_pool.length).filter
    (fun i => decide (gate (X_pool.getD i default) < gate_threshold))

/-- Branch of `triage_applicants` taken when `n_passed == 0`
(`src/pipeline/two_stage_pipeline.py:73-81`): empty arrays, rejection rate 1. -/
def triageEmpty : TriageResult :=
  { selected_indices := [], predicted_scores := [], p_low := [],
    gate_rejection_rate := 1, n_passed_gate := 0 }

/-- Branch of `triage_applicants` taken when `n_passed > 0`
(`src/pipeline/two_stage_pipeline.py:83-98`): score the survivors with the
ranker, `ranking = np.argsort(predicted_scores)[::-1][:n_take]` with
`n_take = min(n_select, len(predicted_scores))`, and gather
`passed_indices[ranking]`, `predicted_scores[ranking]`,
`p_low[passed_gate][ranking]`. -/
def triageSelect {α : Type} [Inhabited α] (X_pool : List α)
    (gate : α → ℚ) (ranker : α → ℚ) (gate_threshold : ℚ) (n_select : ℕ) :
    TriageResult :=
  let n_passed := (X_pool.filter (fun a => decide (gate a < gate_threshold))).length
  let pin := passedIndices X_pool gate gate_threshold
  let scores := pin.map (fun i => ranker (X_pool.getD i default))
  let n_take := min n_select scores.length
  let ranking := ((argsortAsc scores).reverse).take n_take
  { selected_indices := ranking.map (fun r => pin.getD r 0),
    predicted_scores := ranking.map (fun r => scores.getD r 0),
    p_low := ranking.map
      (fun r => (pin.map (fun i => gate (X_pool.getD i default))).getD r 0),
    gate_rejection_rate := 1 - (n_passed : ℚ) / (X_pool.length : ℚ),
    n_passed_gate := n_passed }

/-- Embedding of `triage_applicants` (`src/pipeline/two_stage_pipeline.py:47-98`).
Stage 1 keeps pool members with `p_low < gate_threshold`; with zero survivors it
returns the empty result with rejection rate 1; otherwise stage 2 ranks the
survivors with the ranker and takes the top `min n_select n_passed` positions of
the reversed ascending argsort of the predicted scores. -/
def triage_applicants {α : Type} [Inhabited α] (X_pool : List α)
    (gate : α → ℚ) (ranker : α → ℚ) (gate_threshold : ℚ) (n_select : ℕ) :
    TriageResult :=
  if (X_pool.filter (fun a => decide (gate a < gate_threshold))).length = 0 then
    triageEmpty
  else
    triageSelect X_pool gate ranker gate_threshold n_select

example :
    (triage_applicants [(20 : ℚ), 10, 3] id id 15 5).selected_indices = [1, 2] := by
  decide

example :
    (triage_applicants [(20 : ℚ), 30] id id 15 5).n_passed_gate = 0 := by
  decide

/-- Selecting the elements of `l` at the positions of `range l.length` that
survive an index-level filter is the same as filtering `l` directly. -/
theorem filter_range_map_getD {α : Type} [Inhabited α] (l : List α) (p : α → Bool) :
    ((List.range l.length).filter (fun i => p (l.getD i default))).map
      (fun i => l.getD i default) = l.filter p := by
  induction l with
  | nil => rfl
  | cons a t ih =>
    have hsucc :
        ((List.range t.length).map Nat.succ).filter
            (fun i => p ((a :: t).getD i default)) =
          ((List.range t.length).filter (fun i => p (t.getD i default))).map
            Nat.succ := by
      rw [List.filter_map]
      rfl
    simp only [List.length_cons, List.range_succ_eq_map, List.filter_cons]
    by_cases hp : p ((a :: t).getD 0 default)
    · simp only [hp, if_pos, List.map_cons, hsucc, List.map_map]
      have : ((fun i => (a :: t).getD i default) ∘ Nat.succ) =
          (fun i => t.getD i default) := rfl
      rw [this, ih]
      simp only [List.getD_cons_zero] at hp
      simp [List.filter_cons, hp]
    · simp only [hp, if_neg, Bool.false_eq_true, not_false_iff, hsucc, List.map_map]
      have : ((fun i => (a :: t).getD i default) ∘ Nat.succ) =
          (fun i => t.getD i default) := rfl
      rw [this, ih]
      simp only [List.getD_cons_zero] at hp
      simp [List.filter_cons, hp]

theorem length_passedIndices {α : Type} [Inhabited α] (l : List α) (g : α → ℚ) (t : ℚ) :
    (passedIndices l g t).length = (l.filter (fun a => decide (g a < t))).length := by
  have h := congrArg List.length (filter_range_map_getD l (fun a => decide (g a < t)))
  simpa [passedIndices] using h

theorem mem_passedIndices {α : Type} [Inhabited α] {l : List α} {g : α → ℚ} {t : ℚ}
    {i : ℕ} : i ∈ passedIndices l g t ↔ i < l.length ∧ g (l.getD i default) < t := by
  simp [passedIndices, List.mem_filter, List.mem_range]

theorem sorted_passedIndices {α : Type} [Inhabited α] (l : List α) (g : α → ℚ) (t : ℚ) :
    (passedIndices l g t).Sorted (· < ·) :=
  (List.sorted_lt_range l.length).sublist (List.filter_sublist _)

theorem passedIndices_getD_lt {α : Type} [Inhabited α] {l : List α} {g : α → ℚ}
    {t : ℚ} {r1 r2 : ℕ} (h12 : r1 < r2) (h2 : r2 < (passedIndices l g t).length) :
    (passedIndices l g t).getD r1 0 < (passedIndices l g t).getD r2 0 := by
  have h1 : r1 < (passedIndices l g t).length := h12.trans h2
  rw [List.getD_eq_getElem _ _ h1, List.getD_eq_getElem _ _ h2]
  exact List.pairwise_iff_get.mp (sorted_passedIndices l g t) ⟨r1, h1⟩ ⟨r2, h2⟩ h12

theorem passedIndices_getD_lt_iff {α : Type} [Inhabited α] {l : List α} {g : α → ℚ}
    {t : ℚ} {r1 r2 : ℕ} (h1 : r1 < (passedIndices l g t).length)
    (h2 : r2 < (passedIndices l g t).length) :
    (passedIndices l g t).getD r1 0 < (passedIndices l g t).getD r2 0 ↔ r1 < r2 := by
  constructor
  · intro h
    by_contra hc
    rcases Nat.lt_or_ge r2 r1 with hlt | hge
    · exact absurd (h.trans (passedIndices_getD_lt hlt h1)) (lt_irrefl _)
    · have : r1 = r2 := le_antisymm hge (Nat.le_of_not_lt hc)
      exact absurd (this ▸ h) (lt_irrefl _)
  · intro h
    exact passedIndices_getD_lt h h2

theorem argsortAsc_perm (xs : List ℚ) :
    List.Perm (argsortAsc xs) (List.range xs.length) :=
  List.perm_insertionSort _ _

theorem length_argsortAsc (xs : List ℚ) : (argsortAsc xs).length = xs.length := by
  rw [(argsortAsc_perm xs).length_eq, List.length_range]

theorem mem_argsortAsc {xs : List ℚ} {r : ℕ} : r ∈ argsortAsc xs ↔ r < xs.length := by
  rw [(argsortAsc_perm xs).mem_iff, List.mem_range]

theorem nodup_argsortAsc (xs : List ℚ) : (argsortAsc xs).Nodup :=
  (argsortAsc_perm xs).nodup_iff.mpr (List.nodup_range _)

theorem sorted_argsortAsc (xs : List ℚ) : (argsortAsc xs).Sorted (argsortLe xs) :=
  List.sorted_insertionSort _ _

theorem pairwise_reverse_argsortAsc (xs : List ℚ) :
    (argsortAsc xs).reverse.Pairwise (fun a b => argsortLe xs b a) :=
  List.pairwise_reverse.mpr (sorted_argsortAsc xs)

theorem getD_map_eq {β γ : Type} (f : β → γ) (l : List β) (r : ℕ) (d : β) (d2 : γ)
    (h : r < l.length) : (l.map f).getD r d2 = f (l.getD r d) := by
  rw [List.getD_eq_getElem _ _ (by simpa using h), List.getD_eq_getElem _ _ h,
    List.getElem_map]

/-- C1: for every candidate pool, gate, ranker, threshold and requested K, the
triage result satisfies `len(selected_indices) ≤ min(K, n_passed_gate)`, and
every selected index is a passed-gate index of the pool, i.e. its calibrated
probability `p_low` is strictly below the gate threshold. -/
theorem triage_selected_bounded_and_passed {α : Type} [Inhabited α]
    (X_pool : List α) (gate ranker : α → ℚ) (gate_threshold : ℚ) (n_select : ℕ) :
    (triage_applicants X_pool gate ranker gate_threshold n_select).selected_indices.length
        ≤ min n_select
          (triage_applicants X_pool gate ranker gate_threshold n_select).n_passed_gate
      ∧ ∀ i ∈ (triage_applicants X_pool gate ranker gate_threshold
          n_select).selected_indices,
          i < X_pool.length ∧ gate (X_pool.getD i default) < gate_threshold := by
  unfold triage_applicants
  by_cases h0 :
      (X_pool.filter (fun a => decide (gate a < gate_threshold))).length = 0
  · rw [if_pos h0]
    refine ⟨by simp [triageEmpty], ?_⟩
    intro i hi
    simp [triageEmpty] at hi
  · rw [if_neg h0]
    have hlenpin : (passedIndices X_pool gate gate_threshold).length =
        (X_pool.filter (fun a => decide (gate a < gate_threshold))).length :=
      length_passedIndices X_pool gate gate_threshold
    constructor
    · simp only [triageSelect, List.length_map, List.length_take,
        List.length_reverse, length_argsortAsc]
      omega
    · intro i hi
      simp only [triageSelect, List.mem_map] at hi
      obtain ⟨r, hr, hri⟩ := hi
      have hrlt : r < (passedIndices X_pool gate gate_threshold).length := by
        have h1 : r ∈ (argsortAsc ((passedIndices X_pool gate gate_threshold).map
            (fun i => ranker (X_pool.getD i default)))).reverse :=
          List.mem_of_mem_take hr
        rw [List.mem_reverse] at h1
        have h2 := mem_argsortAsc.mp h1
        simpa using h2
      have hmem : (passedIndices X_pool gate gate_threshold).getD r 0 ∈
          passedIndices X_pool gate gate_threshold := by
        rw [List.getD_eq_getElem _ _ hrlt]
        exact List.getElem_mem hrlt
      rw [← hri]
      exact mem_passedIndices.mp hmem

/-- Witness for `triage_selected_bounded_and_passed` at a concrete pool of two
applicants where only the second passes the gate. -/
theorem triage_selected_bounded_and_passed_witness :
    ((triage_applicants [(20 : ℚ), 10] id id 15 5).selected_indices.length
        ≤ min 5 (triage_applicants [(20 : ℚ), 10] id id 15 5).n_passed_gate)
      ∧ (1 < ([(20 : ℚ), 10] : List ℚ).length
        ∧ id (([(20 : ℚ), 10] : List ℚ).getD 1 default) < 15) := by
  have h := triage_selected_bounded_and_passed [(20 : ℚ), 10] id id 15 5
  exact ⟨h.1, h.2 1 (by decide)⟩

/-- C5: for every pool on which zero candidates pass the gate,
`triage_applicants` returns (does not raise) the empty result: empty
`selected_indices`, empty `predicted_scores` and `p_low` lists,
`gate_rejection_rate` exactly 1 and `n_passed_gate` equal to 0. -/
theorem triage_zero_passed_empty_result {α : Type} [Inhabited α]
    (X_pool : List α) (gate ranker : α → ℚ) (gate_threshold : ℚ) (n_select : ℕ)
    (h : ∀ a ∈ X_pool, gate_threshold ≤ gate a) :
    triage_applicants X_pool gate ranker gate_threshold n_select =
      { selected_indices := [], predicted_scores := [], p_low := [],
        gate_rejection_rate := 1, n_passed_gate := 0 } := by
  unfold triage_applicants
  have h0 : X_pool.filter (fun a => decide (gate a < gate_threshold)) = [] := by
    rw [List.filter_eq_nil_iff]
    intro a ha
    simpa using not_lt.mpr (h a ha)
  rw [if_pos (by rw [h0]; rfl)]
  rfl

/-- Witness for `triage_zero_passed_empty_result`: a two-applicant pool whose
calibrated probabilities 20 and 30 both sit at or above the threshold 15. -/
theorem triage_zero_passed_empty_result_witness :
    triage_applicants [(20 : ℚ), 30] id id 15 7 =
      { selected_indices := [], predicted_scores := [], p_low := [],
        gate_rejection_rate := 1, n_passed_gate := 0 } :=
  triage_zero_passed_empty_result [(20 : ℚ), 30] id id 15 7 (by decide)

/-- C4 counterexample: two pool members both pass the gate and have equal
ranker scores; with K = 1 the code reverses an ascending argsort — on a
two-element array numpy's introsort is an insertion sort, so
`np.argsort([5, 5]) = [0, 1]` — and therefore selects index 1, not the
smaller original index 0 that the claim mandates. -/
theorem triage_tie_broken_by_larger_index_cex :
    (triage_applicants [(0 : ℚ), 0] (fun _ => 0) (fun _ => 5) 1 1).selected_indices
        = [1]
      ∧ [1] ≠ ([0] : List ℕ) := by
  decide

/-- C4 amended: when at least K candidates pass the gate, `triage_applicants`
returns exactly K passed candidates, listed in descending (non-strict)
ranker-score order, and every passed candidate left unselected has a ranker
score at most that of every selected candidate. The claimed smaller-pool-index
tie preference does not hold (see the counterexample); no tie order is
asserted here, because `np.argsort`'s default quicksort leaves the order of
equal keys unspecified — each property below holds for every tie order the
sort may produce. -/
theorem triage_topk_largest_scores {α : Type} [Inhabited α]
    (X_pool : List α) (gate ranker : α → ℚ) (thr : ℚ) (K : ℕ)
    (hK : K ≤ (X_pool.filter (fun a => decide (gate a < thr))).length) :
    (triage_applicants X_pool gate ranker thr K).selected_indices.length = K
      ∧ (∀ i ∈ (triage_applicants X_pool gate ranker thr K).selected_indices,
          i < X_pool.length ∧ gate (X_pool.getD i default) < thr)
      ∧ (triage_applicants X_pool gate ranker thr K).selected_indices.Pairwise
          (fun i j => ranker (X_pool.getD j default)
            ≤ ranker (X_pool.getD i default))
      ∧ ∀ i, i < X_pool.length → gate (X_pool.getD i default) < thr →
          i ∉ (triage_applicants X_pool gate ranker thr K).selected_indices →
          ∀ j ∈ (triage_applicants X_pool gate ranker thr K).selected_indices,
            ranker (X_pool.getD i default) ≤ ranker (X_pool.getD j default) := by
  unfold triage_applicants
  by_cases h0 : (X_pool.filter (fun a => decide (gate a < thr))).length = 0
  · have hK0 : K = 0 := Nat.le_zero.mp (h0 ▸ hK)
    rw [if_pos h0]
    subst hK0
    refine ⟨rfl, ?_, List.Pairwise.nil, ?_⟩
    · intro i hi
      simp [triageEmpty] at hi
    · intro i _ _ _ j hj
      simp [triageEmpty] at hj
  · rw [if_neg h0]
    have hsel : (triageSelect X_pool gate ranker thr K).selected_indices =
        (((argsortAsc ((passedIndices X_pool gate thr).map
            (fun i => ranker (X_pool.getD i default)))).reverse).take
          (min K ((passedIndices X_pool gate thr).map
            (fun i => ranker (X_pool.getD i default))).length)).map
          (fun r => (passedIndices X_pool gate thr).getD r 0) := rfl
    rw [hsel]
    set pin := passedIndices X_pool gate thr with hpin
    set scr := pin.map (fun i => ranker (X_pool.getD i default)) with hscr
    set rev := (argsortAsc scr).reverse with hrev
    set tk := min K scr.length with htkdef
    set rank := rev.take tk with hrank
    have hms : scr.length = pin.length := List.length_map _ _
    have hKm : K ≤ pin.length := by
      rw [hpin, length_passedIndices]
      exact hK
    have hrevlen : rev.length = pin.length := by
      rw [hrev, List.length_reverse, length_argsortAsc, hms]
    have hrankmem : ∀ {r : ℕ}, r ∈ rank → r < pin.length := by
      intro r hr
      have h1 : r ∈ argsortAsc scr := List.mem_reverse.mp (List.mem_of_mem_take hr)
      have h2 := mem_argsortAsc.mp h1
      omega
    have hscr_getD : ∀ r : ℕ, r < pin.length →
        scr.getD r 0 = ranker (X_pool.getD (pin.getD r 0) default) := by
      intro r hr
      rw [hscr]
      exact getD_map_eq _ pin r 0 0 hr
    have hrev_pw : rev.Pairwise (fun a b => argsortLe scr b a) :=
      pairwise_reverse_argsortAsc scr
    refine ⟨?_, ?_, ?_, ?_⟩
    · rw [List.length_map, hrank, List.length_take]
      omega
    · intro i hi2
      obtain ⟨r, hrin, hreq⟩ := List.mem_map.mp hi2
      have hrl : r < pin.length := hrankmem hrin
      have hmem : pin.getD r 0 ∈ pin := by
        rw [List.getD_eq_getElem _ _ hrl]
        exact List.getElem_mem hrl
      rw [← hreq]
      exact mem_passedIndices.mp hmem
    · rw [List.pairwise_map]
      refine (hrev_pw.sublist (List.take_sublist tk rev)).imp_of_mem ?_
      intro a b ha hb hle
      have hal : a < pin.length := hrankmem ha
      have hbl : b < pin.length := hrankmem hb
      have hba : scr.getD b 0 ≤ scr.getD a 0 := by
        rcases hle with hlt | ⟨heq, _⟩
        · exact le_of_lt hlt
        · exact le_of_eq heq
      rw [hscr_getD a hal, hscr_getD b hbl] at hba
      exact hba
    · intro i hi hgate hnot j hj
      have himem : i ∈ pin := mem_passedIndices.mpr ⟨hi, hgate⟩
      obtain ⟨⟨r, hrlt⟩, hget⟩ := List.mem_iff_get.mp himem
      have hgetD : pin.getD r 0 = i := by
        rw [List.getD_eq_getElem _ _ hrlt]
        exact hget
      have hrnotin : r ∉ rank := by
        intro hrin
        exact hnot (List.mem_map.mpr ⟨r, hrin, hgetD⟩)
      have hrinrev : r ∈ rev := by
        rw [hrev, List.mem_reverse]
        exact mem_argsortAsc.mpr (by omega)
      have hrdrop : r ∈ rev.drop tk := by
        have h1 := hrinrev
        rw [← List.take_append_drop tk rev] at h1
        rcases List.mem_append.mp h1 with h2 | h2
        · exact absurd h2 hrnotin
        · exact h2
      obtain ⟨r2, hr2in, hr2eq⟩ := List.mem_map.mp hj
      have hrel : argsortLe scr r r2 :=
        List.Sorted.rel_of_mem_take_of_mem_drop hrev_pw hr2in hrdrop
      have hr2l : r2 < pin.length := hrankmem hr2in
      have hle2 : scr.getD r 0 ≤ scr.getD r2 0 := by
        rcases hrel with hlt | ⟨heq, _⟩
        · exact le_of_lt hlt
        · exact le_of_eq heq
      rw [hscr_getD r hrlt, hscr_getD r2 hr2l, hgetD, hr2eq] at hle2
      exact hle2

/-- Witness for `triage_topk_largest_scores`: a three-member pool in which two
candidates pass the gate and K = 2 is exactly the passed count. -/
theorem triage_topk_largest_scores_witness :
    (triage_applicants [(20 : ℚ), 10, 3] id id 15 2).selected_indices.length = 2
      ∧ (triage_applicants [(20 : ℚ), 10, 3] id id 15 2).selected_indices.Pairwise
          (fun i j => id (([(20 : ℚ), 10, 3] : List ℚ).getD j default)
            ≤ id (([(20 : ℚ), 10, 3] : List ℚ).getD i default)) := by
  have h := triage_topk_largest_scores [(20 : ℚ), 10, 3] id id 15 2 (by decide)
  exact ⟨h.1, h.2.2.1⟩

/-- Prediction fields consumed by `evaluate_two_stage`
(`src/pipeline/model_evaluation.py:159-195`): the triage selection plus the
pass-through gate statistics. -/
structure Predictions where
  selected_indices : List ℕ
  gate_rejection_rate : ℚ
  n_passed_gate : ℕ
deriving Repr, DecidableEq

/-- Metrics dictionary returned by `evaluate_two_stage`
(`src/pipeline/model_evaluation.py:176-194`). -/
structure EvalMetrics where
  k : ℕ
  n_test : ℕ
  contamination_rate : ℚ
  n_low_in_selected : ℕ
  precision_at_k : ℚ
  mean_score_selected : ℚ
  min_score_selected : ℚ
  p10_score_selected : ℚ
  coverage : ℚ
  gate_rejection_rate : ℚ
  n_passed_gate : ℕ
deriving Repr, DecidableEq

/-- Modelled `np.percentile(xs, 10)` with numpy's default linear interpolation:
sort ascending, take position `(len - 1) / 10` and interpolate between the two
neighbouring order statistics. -/
def percentile10 (xs : List ℚ) : ℚ :=
  let sorted := List.insertionSort (· ≤ ·) xs
  let pos : ℚ := ((sorted.length - 1 : ℕ) : ℚ) / 10
  let lo := (⌊pos⌋).toNat
  let frac := pos - (lo : ℚ)
  sorted.getD lo 0
    + frac * (sorted.getD (lo + 1) (sorted.getD lo 0) - sorted.getD lo 0)

/-- Embedding of `evaluate_two_stage` (`src/pipeline/model_evaluation.py:159-195`).
When no explicit `k` is supplied, `k = max(1, int(production_k * n_test /
production_pool_size))`; Python's `int()` truncation on the nonnegative float
is ℕ floor division here. The function indexes `y_true_score` with the
truncated selection and takes its minimum, so an out-of-range index
(`IndexError`) or an empty selection (`ValueError` from `.min()` on an empty
array) raises in Python; both are modelled as `none`. -/
def evaluate_two_stage (y_true_score : List ℚ) (predictions : Predictions)
    (k? : Option ℕ) (low_threshold : ℚ) (production_pool_size : ℕ)
    (production_k : ℕ) : Option EvalMetrics :=
  let n_test := y_true_score.length
  let k := match k? with
    | some kk => kk
    | none => max 1 (production_k * n_test / production_pool_size)
  let selected := predictions.selected_indices.take k
  if selected.isEmpty ∨ ¬ (∀ i ∈ selected, i < n_test) then none
  else
    let selScores := selected.map (fun i => y_true_score.getD i 0)
    some
      { k := k, n_test := n_test,
        contamination_rate :=
          ((selScores.filter (fun s => decide (s ≤ low_threshold))).length : ℚ)
            / (selScores.length : ℚ),
        n_low_in_selected :=
          (selScores.filter (fun s => decide (s ≤ low_threshold))).length,
        precision_at_k :=
          ((selScores.filter (fun s => decide (low_threshold < s))).length : ℚ)
            / (selScores.length : ℚ),
        mean_score_selected := selScores.sum / (selScores.length : ℚ),
        min_score_selected := (selScores.min?).getD 0,
        p10_score_selected := percentile10 selScores,
        coverage :=
          ((selScores.filter (fun s => decide (low_threshold < s))).length : ℚ)
            / ((max 1 ((y_true_score.filter
                (fun s => decide (low_threshold < s))).length) : ℕ) : ℚ),
        gate_rejection_rate := predictions.gate_rejection_rate,
        n_passed_gate := predictions.n_passed_gate }

example : evaluate_two_stage [(20 : ℚ)] ⟨[], 0, 1⟩ none 15 10 5 = none := by
  decide

example :
    (evaluate_two_stage [(20 : ℚ), 10] ⟨[0, 1], 0, 2⟩ none 15 10 5).map
      EvalMetrics.n_low_in_selected = some 0 := by
  decide

set_option maxRecDepth 8000 in
/-- C3 counterexample: for a 519-member evaluated pool with
`production_pool_size = 10000` and `production_k = 4000`, the code computes
`k = max(1, int(4000 * 519 / 10000)) = 207` (truncation), while rounding to the
nearest integer as the claim states would give `round(207.6) = 208`. -/
theorem k_eval_truncates_cex :
    (evaluate_two_stage (List.replicate 519 (20 : ℚ)) ⟨[0], 0, 519⟩ none 15
        10000 4000).map EvalMetrics.k = some 207
      ∧ ¬ ((207 : ℤ) = round ((4000 : ℚ) * 519 / 10000)) := by
  constructor
  · decide
  · have h : round ((4000 : ℚ) * 519 / 10000) = 208 := by
      have h2 : (4000 : ℚ) * 519 / 10000 + 1 / 2 = 2081 / 10 := by norm_num
      rw [round_eq, h2, Int.floor_eq_iff]
      norm_num
    rw [h]
    norm_num

/-- C3 amended: when no explicit `k` is supplied, `evaluate_two_stage`
evaluates the selection at `k_eval = max(1, ⌊production_k * n_eval /
production_pool_size⌋)` — Python `int()` truncation (the floor for these
nonnegative values), not rounding to the nearest integer. -/
theorem k_eval_is_floor_not_round (y : List ℚ) (pred : Predictions)
    (low : ℚ) (ps pk : ℕ) (m : EvalMetrics)
    (hev : evaluate_two_stage y pred none low ps pk = some m) :
    m.k = max 1 (Nat.floor ((pk : ℚ) * (y.length : ℚ) / (ps : ℚ))) := by
  have hfloor : Nat.floor ((pk : ℚ) * (y.length : ℚ) / (ps : ℚ)) =
      pk * y.length / ps := by
    rw [← Nat.cast_mul]
    exact @Nat.floor_div_eq_div ℚ _ _ (pk * y.length) ps
  rw [hfloor]
  simp only [evaluate_two_stage] at hev
  split at hev
  · exact Option.noConfusion hev
  · injection hev with h
    rw [← h]

/-- Witness for `k_eval_is_floor_not_round`: a 3-member pool with
`production_pool_size = 10` and `production_k = 5` gives
`k = max(1, ⌊1.5⌋) = 1`. -/
theorem k_eval_is_floor_not_round_witness :
    (evaluate_two_stage [(20 : ℚ), 10, 5] ⟨[0], 0, 3⟩ none 15 10 5).map
      EvalMetrics.k = some (max 1 (Nat.floor ((5 : ℚ) * 3 / 10))) := by
  cases hev : evaluate_two_stage [(20 : ℚ), 10, 5] ⟨[0], 0, 3⟩ none 15 10 5 with
  | none => exact absurd hev (by decide)
  | some m =>
    rw [Option.map_some']
    refine congrArg some ?_
    rw [k_eval_is_floor_not_round [(20 : ℚ), 10, 5] ⟨[0], 0, 3⟩ 15 10 5 m hev]
    norm_num

/-- In any list of rationals, the elements strictly above a cutoff and the
elements at or below it partition the list. -/
theorem length_filter_lt_add_filter_le (L : List ℚ) (c : ℚ) :
    (L.filter (fun s => decide (c < s))).length
      + (L.filter (fun s => decide (s ≤ c))).length = L.length := by
  induction L with
  | nil => rfl
  | cons a t ih =>
    rcases lt_or_le c a with h | h
    · have h2 : ¬ (a ≤ c) := not_le.mpr h
      simp [List.filter_cons, h, h2]
      omega
    · have h2 : ¬ (c < a) := not_lt.mpr h
      simp [List.filter_cons, h, h2]
      omega

/-- C7 counterexample: on an empty selection, `evaluate_two_stage` does not
produce metrics at all — the Python code raises (`.min()` of an empty array),
modelled as `none` — so `precision_at_k + contamination_rate = 1` fails for the
empty selection. -/
theorem evaluate_empty_selection_raises_cex :
    evaluate_two_stage [(20 : ℚ)] ⟨[], 0, 1⟩ none 15 10000 4000 = none := by
  decide

/-- C7 amended: whenever `evaluate_two_stage` returns metrics (the truncated
selection is nonempty and in range; otherwise the code raises), the
`precision_at_k` plus the `contamination_rate` is exactly 1. -/
theorem precision_add_contamination_eq_one (y : List ℚ) (pred : Predictions)
    (k? : Option ℕ) (low : ℚ) (ps pk : ℕ) (m : EvalMetrics)
    (hev : evaluate_two_stage y pred k? low ps pk = some m) :
    m.precision_at_k + m.contamination_rate = 1 := by
  simp only [evaluate_two_stage] at hev
  split at hev
  · exact Option.noConfusion hev
  · next hcond =>
    push_neg at hcond
    obtain ⟨hne, _⟩ := hcond
    injection hev with h
    rw [← h]
    dsimp only
    rw [div_add_div_same, ← Nat.cast_add, length_filter_lt_add_filter_le,
      List.length_map]
    apply div_self
    rw [Nat.cast_ne_zero]
    intro hz
    exact hne (List.isEmpty_iff.mpr (List.length_eq_zero.mp hz))

/-- Witness for `precision_add_contamination_eq_one`: a two-member pool with
both members selected, one above and one below the threshold. -/
theorem precision_add_contamination_eq_one_witness :
    (evaluate_two_stage [(20 : ℚ), 10] ⟨[0, 1], 0, 2⟩ (some 2) 15 10000
        4000).map (fun m => m.precision_at_k + m.contamination_rate)
      = some 1 := by
  cases hev : evaluate_two_stage [(20 : ℚ), 10] ⟨[0, 1], 0, 2⟩ (some 2) 15
      10000 4000 with
  | none => exact absurd hev (by decide)
  | some m =>
    rw [Option.map_some']
    exact congrArg some
      (precision_add_contamination_eq_one [(20 : ℚ), 10] ⟨[0, 1], 0, 2⟩
        (some 2) 15 10000 4000 m hev)

/-- C10: when no candidate in the evaluated pool scores above the low
threshold, the coverage denominator `max(1, (y > low).sum())` is 1 instead of
0, so coverage is a defined value equal to 0 and no division by zero occurs. -/
theorem coverage_zero_when_no_high (y : List ℚ) (pred : Predictions)
    (k? : Option ℕ) (low : ℚ) (ps pk : ℕ) (m : EvalMetrics)
    (hall : ∀ s ∈ y, s ≤ low)
    (hev : evaluate_two_stage y pred k? low ps pk = some m) :
    m.coverage = 0 := by
  simp only [evaluate_two_stage] at hev
  split at hev
  · exact Option.noConfusion hev
  · next hcond =>
    push_neg at hcond
    obtain ⟨_, hrange⟩ := hcond
    injection hev with h
    rw [← h]
    dsimp only
    have hnum : ∀ L : List ℕ, (∀ i ∈ L, i < y.length) →
        ((L.map (fun i => y.getD i 0)).filter (fun s => decide (low < s))) = [] := by
      intro L hL
      rw [List.filter_eq_nil_iff]
      intro s hs
      obtain ⟨i, hiL, hieq⟩ := List.mem_map.mp hs
      have hmem : y.getD i 0 ∈ y := by
        rw [List.getD_eq_getElem _ _ (hL i hiL)]
        exact List.getElem_mem _
      rw [← hieq]
      simpa using not_lt.mpr (hall _ hmem)
    rw [hnum _ hrange]
    simp

/-- Witness for `coverage_zero_when_no_high`: an all-low two-member pool. -/
theorem coverage_zero_when_no_high_witness :
    (evaluate_two_stage [(5 : ℚ), 3] ⟨[0], 0, 2⟩ none 15 10000 4000).map
      EvalMetrics.coverage = some 0 := by
  cases hev : evaluate_two_stage [(5 : ℚ), 3] ⟨[0], 0, 2⟩ none 15 10000 4000 with
  | none => exact absurd hev (by decide)
  | some m =>
    rw [Option.map_some']
    exact congrArg some
      (coverage_zero_when_no_high [(5 : ℚ), 3] ⟨[0], 0, 2⟩ none 15 10000 4000 m
        (by decide) hev)

instance : Std.Antisymm (fun a b : ℚ => a ≤ b) :=
  ⟨fun h1 h2 => le_antisymm h1 h2⟩

/-- First-occurrence deduplication of a list, modelling the group order of
`pandas.Series.dropna().unique()`. -/
def uniqueFirst {G : Type} [DecidableEq G] (l : List G) : List G :=
  l.foldl (fun acc g => if g ∈ acc then acc else acc ++ [g]) []

theorem uniqueFirst_foldl_mem {G : Type} [DecidableEq G] (l : List G)
    (acc : List G) (x : G) :
    (x ∈ l.foldl (fun acc g => if g ∈ acc then acc else acc ++ [g]) acc)
      ↔ x ∈ acc ∨ x ∈ l := by
  induction l generalizing acc with
  | nil => simp
  | cons a t ih =>
    simp only [List.foldl_cons]
    by_cases h : a ∈ acc
    · rw [if_pos h, ih]
      constructor
      · rintro (hx | hx)
        · exact Or.inl hx
        · exact Or.inr (List.mem_cons_of_mem a hx)
      · rintro (hx | hx)
        · exact Or.inl hx
        · rcases List.mem_cons.mp hx with rfl | hx
          · exact Or.inl h
          · exact Or.inr hx
    · rw [if_neg h, ih]
      constructor
      · rintro (hx | hx)
        · rcases List.mem_append.mp hx with hx | hx
          · exact Or.inl hx
          · exact Or.inr (List.mem_cons.mpr (Or.inl (List.mem_singleton.mp hx)))
        · exact Or.inr (List.mem_cons_of_mem a hx)
      · rintro (hx | hx)
        · exact Or.inl (List.mem_append.mpr (Or.inl hx))
        · rcases List.mem_cons.mp hx with rfl | hx
          · exact Or.inl (List.mem_append.mpr (Or.inr (List.mem_singleton.mpr rfl)))
          · exact Or.inr hx

theorem mem_uniqueFirst {G : Type} [DecidableEq G] {l : List G} {x : G} :
    x ∈ uniqueFirst l ↔ x ∈ l := by
  have h := uniqueFirst_foldl_mem l [] x
  simpa [uniqueFirst] using h

/-- One row of the per-group gate fairness report produced by
`audit_gate_fairness` (`src/pipeline/fairness_audit.py:222-254`). The field
`rejection_di` models the source column `rejection_di_ratio`. -/
structure GateAuditRow (G : Type) where
  group : G
  n : ℕ
  rejection_rate : ℚ
  actual_low_rate : ℚ
  rejection_rate_minus_actual : ℚ
  rejection_di : ℚ
  passes_80pct_rule : Bool
deriving Repr, DecidableEq

/-- Boolean flags of the members of one group: the column values at positions
where `sensitive == group` (missing entries never equal a group value). -/
def groupFlags {G : Type} [DecidableEq G] (sensitive : List (Option G))
    (flags : List Bool) (g : G) : List Bool :=
  ((sensitive.zip flags).filter (fun sr => decide (sr.1 = some g))).map
    (fun sr => sr.2)

/-- Mean of a 0/1 indicator column, `np.ndarray.mean()` over booleans. -/
def boolMean (l : List Bool) : ℚ := ((l.count true : ℕ) : ℚ) / (l.length : ℚ)

/-- Groups of one protected attribute: `sensitive.dropna().unique()`. -/
def attrGroups {G : Type} [DecidableEq G] (sensitive : List (Option G)) : List G :=
  uniqueFirst (sensitive.filterMap id)

/-- Per-group mean of a flag column restricted to one group: the code's
`group_rejected.mean()` and `is_low[mask].mean()`. -/
def groupRate {G : Type} [DecidableEq G] (sensitive : List (Option G))
    (flags : List Bool) (g : G) : ℚ :=
  boolMean (groupFlags sensitive flags g)

/-- The per-attribute disparate-impact ratio on rejection
(`src/pipeline/fairness_audit.py:243-250`):
`min(group rejection rates) / max(group rejection rates)` when the maximum is
positive, else 1.0. -/
def attrDI {G : Type} [DecidableEq G] (sensitive : List (Option G))
    (gate_rejected : List Bool) : ℚ :=
  let rates := (attrGroups sensitive).map (groupRate sensitive gate_rejected)
  if 0 < (rates.max?).getD 0 then (rates.min?).getD 0 / (rates.max?).getD 0
  else 1

/-- The report row of one group (`src/pipeline/fairness_audit.py:230-254`),
with the shared per-attribute DI ratio and the 80% rule flag
`passes_80pct_rule = di_ratio >= 0.8` attached. -/
def mkGateRow {G : Type} [DecidableEq G] (sensitive : List (Option G))
    (gate_rejected is_low : List Bool) (g : G) : GateAuditRow G :=
  { group := g, n := (groupFlags sensitive gate_rejected g).length,
    rejection_rate := groupRate sensitive gate_rejected g,
    actual_low_rate := groupRate sensitive is_low g,
    rejection_rate_minus_actual :=
      groupRate sensitive gate_rejected g - groupRate sensitive is_low g,
    rejection_di := attrDI sensitive gate_rejected,
    passes_80pct_rule := decide ((8 : ℚ) / 10 ≤ attrDI sensitive gate_rejected) }

/-- Embedding of the per-attribute body of `audit_gate_fairness`
(`src/pipeline/fairness_audit.py:203-255`) for one protected attribute, given
the already-binned sensitive column (`none` = missing), the gate rejection
flags `p_low >= threshold` and the ground-truth low flags
`score <= low_score_threshold`. Attributes with fewer than 2 distinct groups
are skipped (`if len(groups) < 2: continue`); there is no minimum-valid-sample
check in this function. Each group contributes a row. -/
def audit_gate_attr {G : Type} [DecidableEq G] (sensitive : List (Option G))
    (gate_rejected : List Bool) (is_low : List Bool) : List (GateAuditRow G) :=
  if (attrGroups sensitive).length < 2 then []
  else (attrGroups sensitive).map (mkGateRow sensitive gate_rejected is_low)

theorem mkGateRow_rejection_di {G : Type} [DecidableEq G]
    (sensitive : List (Option G)) (gate_rejected is_low : List Bool) (g : G) :
    (mkGateRow sensitive gate_rejected is_low g).rejection_di =
      attrDI sensitive gate_rejected := rfl

theorem mkGateRow_rejection_rate {G : Type} [DecidableEq G]
    (sensitive : List (Option G)) (gate_rejected is_low : List Bool) (g : G) :
    (mkGateRow sensitive gate_rejected is_low g).rejection_rate =
      groupRate sensitive gate_rejected g := rfl

theorem mkGateRow_passes {G : Type} [DecidableEq G]
    (sensitive : List (Option G)) (gate_rejected is_low : List Bool) (g : G) :
    (mkGateRow sensitive gate_rejected is_low g).passes_80pct_rule =
      decide ((8 : ℚ) / 10 ≤ attrDI sensitive gate_rejected) := rfl

theorem boolMean_nonneg (l : List Bool) : 0 ≤ boolMean l :=
  div_nonneg (Nat.cast_nonneg _) (Nat.cast_nonneg _)

theorem boolMean_le_one (l : List Bool) : boolMean l ≤ 1 := by
  unfold boolMean
  rcases Nat.eq_zero_or_pos l.length with h | h
  · rw [h]
    norm_num
  · rw [div_le_one (by exact_mod_cast h)]
    exact_mod_cast List.count_le_length _ _

example :
    (audit_gate_attr [some 0, some (1 : ℕ), some 0, some 1]
      [true, false, false, false] [false, false, false, false]).length = 2 := by
  decide

example :
    (audit_gate_attr [some 0, some (0 : ℕ), none]
      [true, false, false] [false, false, false]) = [] := by
  decide

/-- C8: for every audited attribute, every row carries a disparate-impact
ratio in [0, 1] whose 80% flag is set iff the ratio is at least 0.8; whenever
some group has a nonzero rejection rate the ratio equals
`min(group rejection rates) / max(group rejection rates)`, and it equals
exactly 1 whenever all groups share the same rejection rate. -/
theorem gate_fairness_di_spec {G : Type} [DecidableEq G]
    (sensitive : List (Option G)) (gate_rejected is_low : List Bool)
    (row : GateAuditRow G)
    (hrow : row ∈ audit_gate_attr sensitive gate_rejected is_low) :
    (0 ≤ row.rejection_di ∧ row.rejection_di ≤ 1)
      ∧ (row.passes_80pct_rule = true ↔ (8 : ℚ) / 10 ≤ row.rejection_di)
      ∧ ((∃ r2 ∈ audit_gate_attr sensitive gate_rejected is_low,
            0 < r2.rejection_rate) →
          row.rejection_di =
            (((audit_gate_attr sensitive gate_rejected is_low).map
                (fun r => r.rejection_rate)).min?).getD 0
              / (((audit_gate_attr sensitive gate_rejected is_low).map
                (fun r => r.rejection_rate)).max?).getD 0)
      ∧ ((∀ r2 ∈ audit_gate_attr sensitive gate_rejected is_low,
            r2.rejection_rate = row.rejection_rate) →
          row.rejection_di = 1) := by
  have hrows : audit_gate_attr sensitive gate_rejected is_low =
      if (attrGroups sensitive).length < 2 then []
      else (attrGroups sensitive).map (mkGateRow sensitive gate_rejected is_low) :=
    rfl
  by_cases hglen : (attrGroups sensitive).length < 2
  · rw [hrows, if_pos hglen] at hrow
    exact absurd hrow (List.not_mem_nil row)
  · rw [hrows, if_neg hglen] at hrow
    rw [hrows, if_neg hglen]
    obtain ⟨g, hgmem, hgeq⟩ := List.mem_map.mp hrow
    subst hgeq
    set rates := (attrGroups sensitive).map (groupRate sensitive gate_rejected)
      with hratesdef
    have hne : rates ≠ [] := by
      intro hnil
      have := congrArg List.length hnil
      simp only [hratesdef, List.length_map, List.length_nil] at this
      omega
    obtain ⟨mn, hmn⟩ : ∃ a, rates.min? = some a := by
      cases hr : rates with
      | nil => exact absurd hr hne
      | cons x xs => exact ⟨_, List.min?_cons⟩
    obtain ⟨mx, hmx⟩ : ∃ a, rates.max? = some a := by
      cases hr : rates with
      | nil => exact absurd hr hne
      | cons x xs => exact ⟨_, List.max?_cons⟩
    have hmnspec := (List.min?_eq_some_iff (fun a => le_refl a)
      (fun a b => min_choice a b) (fun a b c => le_min_iff)).mp hmn
    have hmxspec := (List.max?_eq_some_iff (fun a => le_refl a)
      (fun a b => max_choice a b) (fun a b c => max_le_iff)).mp hmx
    have h01 : ∀ q ∈ rates, 0 ≤ q ∧ q ≤ 1 := by
      intro q hq
      obtain ⟨g2, _, hg2⟩ := List.mem_map.mp hq
      rw [← hg2]
      exact ⟨boolMean_nonneg _, boolMean_le_one _⟩
    have hmn0 : 0 ≤ mn := (h01 mn hmnspec.1).1
    have hmnmx : mn ≤ mx := hmnspec.2 mx hmxspec.1
    have hdi_eq : attrDI sensitive gate_rejected =
        if 0 < mx then mn / mx else 1 := by
      unfold attrDI
      rw [← hratesdef]
      dsimp only
      rw [hmn, hmx, Option.getD_some, Option.getD_some]
    have hmaps : ((attrGroups sensitive).map
        (mkGateRow sensitive gate_rejected is_low)).map
          (fun r => r.rejection_rate) = rates := by
      rw [List.map_map, hratesdef]
      rfl
    refine ⟨?_, ?_, ?_, ?_⟩
    · rw [mkGateRow_rejection_di, hdi_eq]
      by_cases hpos : 0 < mx
      · rw [if_pos hpos]
        exact ⟨div_nonneg hmn0 (le_of_lt hpos), (div_le_one hpos).mpr hmnmx⟩
      · rw [if_neg hpos]
        exact ⟨zero_le_one, le_refl 1⟩
    · rw [mkGateRow_passes, mkGateRow_rejection_di]
      simp [decide_eq_true_eq]
    · rintro ⟨r2, hr2mem, hr2pos⟩
      obtain ⟨g2, hg2mem, hg2eq⟩ := List.mem_map.mp hr2mem
      have hg2rate : groupRate sensitive gate_rejected g2 ∈ rates := by
        rw [hratesdef]
        exact List.mem_map_of_mem _ hg2mem
      have hr2pos2 : 0 < groupRate sensitive gate_rejected g2 := by
        rw [← mkGateRow_rejection_rate sensitive gate_rejected is_low g2, hg2eq]
        exact hr2pos
      have hpos : 0 < mx := lt_of_lt_of_le hr2pos2 (hmxspec.2 _ hg2rate)
      rw [mkGateRow_rejection_di, hdi_eq, if_pos hpos, hmaps, hmn, hmx,
        Option.getD_some, Option.getD_some]
    · intro hall
      have hc : ∀ q ∈ rates, q = groupRate sensitive gate_rejected g := by
        intro q hq
        obtain ⟨g2, hg2mem, hg2⟩ := List.mem_map.mp hq
        have h2 := hall (mkGateRow sensitive gate_rejected is_low g2)
          (List.mem_map_of_mem _ hg2mem)
        rw [mkGateRow_rejection_rate, mkGateRow_rejection_rate] at h2
        rw [← hg2]
        exact h2
      have hmn_eq : mn = groupRate sensitive gate_rejected g := hc mn hmnspec.1
      have hmx_eq : mx = groupRate sensitive gate_rejected g := hc mx hmxspec.1
      rw [mkGateRow_rejection_di, hdi_eq]
      by_cases hpos : 0 < mx
      · rw [if_pos hpos, hmn_eq, ← hmx_eq]
        exact div_self (ne_of_gt hpos)
      · rw [if_neg hpos]

/-- Witness for `gate_fairness_di_spec`: an attribute with two groups of one
member each, both rejected, so both group rejection rates are equal and
nonzero; the DI ratio of the first row is in [0, 1] and equals exactly 1. -/
theorem gate_fairness_di_spec_witness :
    (0 ≤ (mkGateRow [some 0, some (1 : ℕ)] [true, true] [false, false]
          0).rejection_di
        ∧ (mkGateRow [some 0, some (1 : ℕ)] [true, true] [false, false]
          0).rejection_di ≤ 1)
      ∧ (mkGateRow [some 0, some (1 : ℕ)] [true, true] [false, false]
          0).rejection_di = 1 := by
  have hmapeq : audit_gate_attr [some 0, some (1 : ℕ)] [true, true]
      [false, false] = (attrGroups [some 0, some (1 : ℕ)]).map
        (mkGateRow [some 0, some (1 : ℕ)] [true, true] [false, false]) :=
    if_neg (by decide)
  have hmem : mkGateRow [some 0, some (1 : ℕ)] [true, true] [false, false] 0 ∈
      audit_gate_attr [some 0, some (1 : ℕ)] [true, true] [false, false] := by
    rw [hmapeq]
    exact List.mem_map_of_mem _
      (show (0 : ℕ) ∈ attrGroups [some 0, some (1 : ℕ)] by decide)
  have h := gate_fairness_di_spec [some 0, some (1 : ℕ)] [true, true]
    [false, false] (mkGateRow [some 0, some (1 : ℕ)] [true, true]
      [false, false] 0) hmem
  have h0 : groupRate [some 0, some (1 : ℕ)] [true, true] 0 = 1 := by
    simp [groupRate, groupFlags, boolMean]
  have h1 : groupRate [some 0, some (1 : ℕ)] [true, true] 1 = 1 := by
    simp [groupRate, groupFlags, boolMean]
  have hgs : attrGroups [some 0, some (1 : ℕ)] = [0, 1] := by decide
  have hall : ∀ r2 ∈ audit_gate_attr [some 0, some (1 : ℕ)] [true, true]
      [false, false], r2.rejection_rate =
        (mkGateRow [some 0, some (1 : ℕ)] [true, true] [false, false]
          0).rejection_rate := by
    intro r2 hr2
    rw [hmapeq] at hr2
    obtain ⟨g2, hg2mem, hg2eq⟩ := List.mem_map.mp hr2
    rw [hgs] at hg2mem
    rw [← hg2eq, mkGateRow_rejection_rate, mkGateRow_rejection_rate]
    rcases List.mem_cons.mp hg2mem with rfl | hg2mem
    · rfl
    · rcases List.mem_cons.mp hg2mem with rfl | hg2mem
      · rw [h1, h0]
      · exact absurd hg2mem (List.not_mem_nil g2)
  exact ⟨h.1, h.2.2.2 hall⟩

/-- C9 counterexample: an attribute with 2 distinct groups but only 4 valid
(non-missing) samples still contributes two rows to the gate fairness audit —
`audit_gate_fairness` has no minimum-valid-sample check, so the claimed
"skip attributes with fewer than 10 valid samples" behaviour does not hold. -/
theorem gate_audit_small_sample_rows_cex :
    (audit_gate_attr [some 0, some (1 : ℕ), some 0, some 1]
        [true, false, false, false] [false, false, false, false]).length = 2
      ∧ (([some 0, some (1 : ℕ), some 0, some 1].filterMap id).length < 10) := by
  constructor
  · decide
  · decide

/-- C9 amended: `audit_gate_fairness` emits no rows for an attribute with
fewer than 2 distinct groups (a bare `continue` without logging), and emits
exactly one row per group otherwise, with no minimum-valid-sample condition
(the fewer-than-10-valid-samples skip exists only in `full_fairness_audit`). -/
theorem gate_audit_skip_rule {G : Type} [DecidableEq G]
    (sensitive : List (Option G)) (gate_rejected is_low : List Bool) :
    ((attrGroups sensitive).length < 2 →
        audit_gate_attr sensitive gate_rejected is_low = [])
      ∧ (2 ≤ (attrGroups sensitive).length →
        (audit_gate_attr sensitive gate_rejected is_low).length
          = (attrGroups sensitive).length) := by
  constructor
  · intro h
    exact if_pos h
  · intro h
    have h2 : ¬ ((attrGroups sensitive).length < 2) := not_lt.mpr h
    rw [show audit_gate_attr sensitive gate_rejected is_low =
        (attrGroups sensitive).map (mkGateRow sensitive gate_rejected is_low)
      from if_neg h2]
    exact List.length_map _ _

/-- Witness for `gate_audit_skip_rule`: an attribute with two groups among
three samples (one missing) contributes one row per group. -/
theorem gate_audit_skip_rule_witness :
    (audit_gate_attr [some 0, some (2 : ℕ), none] [true, false, true]
        [false, true, false]).length
      = (attrGroups ([some 0, some (2 : ℕ), none] : List (Option ℕ))).length :=
  (gate_audit_skip_rule [some 0, some (2 : ℕ), none] [true, false, true]
    [false, true, false]).2 (by decide)

/-- Embedding of `screening_gain` (`src/pipeline/model_evaluation.py:125-138`):
element-wise confusion-matrix weighted sum with TN → 0, FP → −1, FN → −10,
TP → +1, where the positive class is `is_low`. -/
def screening_gain (y_true y_pred : List Bool) : ℤ :=
  let pairs := y_true.zip y_pred
  (pairs.count (true, true) : ℤ) * 1 + (pairs.count (false, true) : ℤ) * (-1)
    + (pairs.count (true, false) : ℤ) * (-10)
    + (pairs.count (false, false) : ℤ) * 0

/-- sklearn `recall_score(y_true, y_pred, zero_division=0)`: TP / (TP + FN),
and 0 when there are no positive samples. -/
def recall_score (y_true y_pred : List Bool) : ℚ :=
  let pairs := y_true.zip y_pred
  let tp := pairs.count (true, true)
  let pos := tp + pairs.count (true, false)
  if pos = 0 then 0 else (tp : ℚ) / (pos : ℚ)

/-- The sweep grid `np.arange(0.01, 0.50, 0.005)`: the 98 thresholds 0.01,
0.015, …, 0.495, as exact rationals. -/
def thresholdGrid : List ℚ :=
  (List.range 98).map (fun k => 1 / 100 + (k : ℚ) * (1 / 200))

/-- Gate decisions at threshold `t`: `(p_low_thresh >= t).astype(int)`. -/
def gate_flags (p_low : List ℚ) (t : ℚ) : List Bool :=
  p_low.map (fun q => decide (t ≤ q))

/-- One iteration of the threshold sweep loop in `train_safety_gate`
(`src/pipeline/model_training.py:313-321`): the candidate replaces the running
best when `recall >= GATE_RECALL_TARGET and gain > best_gain`; `best_gain`
starts at −∞, modelled by the `none` state accepting any gain. -/
def sweepStep (p_low : List ℚ) (y : List Bool) (target : ℚ)
    (best : Option (ℚ × ℤ)) (t : ℚ) : Option (ℚ × ℤ) :=
  let r := recall_score y (gate_flags p_low t)
  let g := screening_gain y (gate_flags p_low t)
  match best with
  | none => if target ≤ r then some (t, g) else none
  | some b => if target ≤ r ∧ b.2 < g then some (t, g) else some b

/-- The full sweep: fold `sweepStep` over the grid from the empty best. -/
def sweepBest (p_low : List ℚ) (y : List Bool) (target : ℚ) : Option (ℚ × ℤ) :=
  thresholdGrid.foldl (sweepStep p_low y target) none

/-- Threshold selection of `train_safety_gate`
(`src/pipeline/model_training.py:306-334`), given the calibrated probabilities
`p_low` and binary labels `y` of the threshold-holdout split: the swept best
threshold with no warning, or the fallback threshold `0.01` with a warning
(the Bool component is the emitted-warning flag) when no grid threshold
reaches the recall target. -/
def select_gate_threshold (p_low : List ℚ) (y : List Bool) (target : ℚ) :
    ℚ × Bool :=
  match sweepBest p_low y target with
  | some tg => (tg.1, false)
  | none => (1 / 100, true)

/-- Loop invariant of the threshold sweep: the running best is `none` exactly
when no processed threshold qualifies, and otherwise stores a qualifying
processed threshold with its gain, maximal among processed qualifying ones. -/
def SweepStateOK (p_low : List ℚ) (y : List Bool) (target : ℚ)
    (best : Option (ℚ × ℤ)) (seen : List ℚ) : Prop :=
  match best with
  | none => ∀ t ∈ seen, ¬ target ≤ recall_score y (gate_flags p_low t)
  | some tg => target ≤ recall_score y (gate_flags p_low tg.1)
      ∧ tg.2 = screening_gain y (gate_flags p_low tg.1)
      ∧ tg.1 ∈ seen
      ∧ ∀ u ∈ seen, target ≤ recall_score y (gate_flags p_low u) →
          screening_gain y (gate_flags p_low u) ≤ tg.2

theorem sweep_foldl_invariant (p_low : List ℚ) (y : List Bool) (target : ℚ) :
    ∀ (L : List ℚ) (seen : List ℚ) (best : Option (ℚ × ℤ)),
      SweepStateOK p_low y target best seen →
      SweepStateOK p_low y target (L.foldl (sweepStep p_low y target) best)
        (seen ++ L) := by
  intro L
  induction L with
  | nil =>
    intro seen best h
    simpa using h
  | cons t L ih =>
    intro seen best h
    rw [List.foldl_cons]
    have hstep : SweepStateOK p_low y target (sweepStep p_low y target best t)
        (seen ++ [t]) := by
      cases best with
      | none =>
        show SweepStateOK p_low y target
          (if target ≤ recall_score y (gate_flags p_low t)
            then some (t, screening_gain y (gate_flags p_low t)) else none)
          (seen ++ [t])
        by_cases hq : target ≤ recall_score y (gate_flags p_low t)
        · rw [if_pos hq]
          refine ⟨hq, rfl,
            List.mem_append.mpr (Or.inr (List.mem_singleton.mpr rfl)), ?_⟩
          intro u hu hqu
          rcases List.mem_append.mp hu with hu | hu
          · exact absurd hqu (h u hu)
          · rw [List.mem_singleton.mp hu]
        · rw [if_neg hq]
          intro u hu
          rcases List.mem_append.mp hu with hu | hu
          · exact h u hu
          · rw [List.mem_singleton.mp hu]
            exact hq
      | some b =>
        obtain ⟨hb1, hb2, hb3, hb4⟩ := h
        show SweepStateOK p_low y target
          (if target ≤ recall_score y (gate_flags p_low t)
              ∧ b.2 < screening_gain y (gate_flags p_low t)
            then some (t, screening_gain y (gate_flags p_low t)) else some b)
          (seen ++ [t])
        by_cases hcond : target ≤ recall_score y (gate_flags p_low t)
            ∧ b.2 < screening_gain y (gate_flags p_low t)
        · rw [if_pos hcond]
          refine ⟨hcond.1, rfl,
            List.mem_append.mpr (Or.inr (List.mem_singleton.mpr rfl)), ?_⟩
          intro u hu hqu
          rcases List.mem_append.mp hu with hu | hu
          · exact le_of_lt (lt_of_le_of_lt (hb4 u hu hqu) hcond.2)
          · rw [List.mem_singleton.mp hu]
        · rw [if_neg hcond]
          refine ⟨hb1, hb2, List.mem_append.mpr (Or.inl hb3), ?_⟩
          intro u hu hqu
          rcases List.mem_append.mp hu with hu | hu
          · exact hb4 u hu hqu
          · rw [List.mem_singleton.mp hu] at hqu ⊢
            rcases not_and_or.mp hcond with hc | hc
            · exact absurd hqu hc
            · exact le_of_not_lt hc
    have hres := ih (seen ++ [t]) (sweepStep p_low y target best t) hstep
    rw [List.append_assoc] at hres
    simpa using hres

/-- C2: on the threshold-holdout split, if at least one grid threshold
attains recall at or above the recall target, `train_safety_gate` returns —
without warning — a grid threshold attaining that recall and maximizing the
cost-sensitive screening gain (TP +1, FN −10, FP −1, TN 0) among all such
thresholds; otherwise it returns the smallest tested threshold 0.01 and emits
a warning. -/
theorem gate_threshold_sweep_spec (p_low : List ℚ) (y : List Bool)
    (target : ℚ) :
    ((∃ t ∈ thresholdGrid, target ≤ recall_score y (gate_flags p_low t)) →
        (select_gate_threshold p_low y target).2 = false
        ∧ (select_gate_threshold p_low y target).1 ∈ thresholdGrid
        ∧ target ≤ recall_score y
            (gate_flags p_low (select_gate_threshold p_low y target).1)
        ∧ ∀ t ∈ thresholdGrid,
            target ≤ recall_score y (gate_flags p_low t) →
            screening_gain y (gate_flags p_low t)
              ≤ screening_gain y
                  (gate_flags p_low (select_gate_threshold p_low y target).1))
      ∧ ((∀ t ∈ thresholdGrid,
            ¬ target ≤ recall_score y (gate_flags p_low t)) →
        select_gate_threshold p_low y target = (1 / 100, true)) := by
  have hinv0 := sweep_foldl_invariant p_low y target thresholdGrid [] none
    (by intro t ht; exact absurd ht (List.not_mem_nil t))
  rw [List.nil_append] at hinv0
  have hinv : SweepStateOK p_low y target (sweepBest p_low y target)
      thresholdGrid := hinv0
  constructor
  · rintro ⟨t0, ht0mem, ht0q⟩
    cases hsb : sweepBest p_low y target with
    | none =>
      rw [hsb] at hinv
      exact absurd ht0q (hinv t0 ht0mem)
    | some tg =>
      rw [hsb] at hinv
      obtain ⟨h1, h2, h3, h4⟩ := hinv
      have hsel : select_gate_threshold p_low y target = (tg.1, false) := by
        unfold select_gate_threshold
        rw [hsb]
      rw [hsel]
      refine ⟨rfl, h3, h1, ?_⟩
      intro t ht hq
      have hle := h4 t ht hq
      rw [h2] at hle
      exact hle
  · intro hnone
    have hsbn : sweepBest p_low y target = none := by
      cases hsb : sweepBest p_low y target with
      | none => rfl
      | some tg =>
        rw [hsb] at hinv
        exact absurd hinv.1 (hnone tg.1 hinv.2.2.1)
    unfold select_gate_threshold
    rw [hsbn]

/-- Witness for `gate_threshold_sweep_spec`: one holdout sample with
probability 1 and positive label, recall target 0.95 — every grid threshold
attains recall 1, so the sweep succeeds without the fallback warning. -/
theorem gate_threshold_sweep_spec_witness :
    (select_gate_threshold [(1 : ℚ)] [true] (19 / 20)).2 = false
      ∧ (select_gate_threshold [(1 : ℚ)] [true] (19 / 20)).1 ∈ thresholdGrid
      ∧ (19 : ℚ) / 20 ≤ recall_score [true]
          (gate_flags [(1 : ℚ)]
            (select_gate_threshold [(1 : ℚ)] [true] (19 / 20)).1) := by
  have hex : ∃ t ∈ thresholdGrid, (19 : ℚ) / 20 ≤ recall_score [true]
      (gate_flags [(1 : ℚ)] t) := by
    refine ⟨1 / 100, ?_, ?_⟩
    · have hm : (1 : ℚ) / 100 + ((0 : ℕ) : ℚ) * (1 / 200) ∈ thresholdGrid :=
        List.mem_map_of_mem (fun k : ℕ => 1 / 100 + (k : ℚ) * (1 / 200))
          (List.mem_range.mpr (show (0 : ℕ) < 98 by norm_num))
      have he : (1 : ℚ) / 100 + ((0 : ℕ) : ℚ) * (1 / 200) = 1 / 100 := by
        norm_num
      rw [← he]
      exact hm
    · have h1 : gate_flags [(1 : ℚ)] (1 / 100) = [true] := by
        simp only [gate_flags, List.map_cons, List.map_nil, decide_eq_true_eq]
        norm_num
      rw [h1]
      simp only [recall_score, List.zip_cons_cons, List.zip_nil_right,
        List.count_cons, List.count_nil]
      norm_num
  have h := (gate_threshold_sweep_spec [(1 : ℚ)] [true] (19 / 20)).1 hex
  exact ⟨h.1, h.2.1, h.2.2.1⟩
